import Mathlib

/-!
Verification of the infinispan-py Hot Rod client core: the declarative
binary codec (`Protocol.encode` / `Protocol.decode` / `Protocol._encode` /
`Protocol._decode` in `infinispan/hotrod.py`), the request/response
correlation loop (`Protocol.send`), and the connection pool's availability
counting.

Messages are shallowly embedded as ordered lists of (field descriptor,
field value) pairs, mirroring the `messenger.Message` field tables that
`hotrod.py` declares.  Byte streams are lists of naturals (< 256 in all
well-formed streams).  Python `None` is `FVal.fnone`; a fallible operation
returns `Except`/`Option`.
-/

namespace Infinispan

/-- Modelled from the spec: `codec.Encoder.uvarint`/`uvarlong` (codec.py is
not among the sources).  Base-128 little-endian groups, 7 data bits per
byte, continuation flag in the top bit. -/
def uvarint (n : Nat) : List Nat :=
  if n < 128 then [n]
  else (n % 128 + 128) :: uvarint (n / 128)
termination_by n
decreasing_by exact Nat.div_lt_self (by omega) (by omega)

/-- Modelled from the spec: `codec.Decoder.uvarint`/`uvarlong` (codec.py is
not among the sources).  Reads base-128 groups until a byte without the
continuation bit; fails on a truncated stream. -/
def decodeUvarint : List Nat → Option (Nat × List Nat)
  | [] => none
  | b :: rest =>
    if b < 128 then some (b, rest)
    else
      match decodeUvarint rest with
      | some (v, r) => some (v * 128 + b % 128, r)
      | none => none

/-- Wire types of the field type system (`messenger.py`, modelled from the
spec): fixed byte, unsigned varint, unsigned varlong, length-prefixed
bytes, length-prefixed string, packed two-value byte, nested composite. -/
inductive WType where
  | byte
  | uvarint
  | uvarlong
  | bytes
  | wstring
  | splitByte
  | composite
deriving DecidableEq

/-- Presence conditions appearing in `hotrod.py`, as a first-order syntax:
`statusEq n` is `lambda s: s.header.status == n` (GetResponse.value,
PutResponse.prev_value, RemoveResponse.prev_value); `tunitsFstStd` is
`lambda s: s.tunits[0] not in [TimeUnits.DEFAULT, TimeUnits.INFINITE]`
(PutRequest.lifespan) and `tunitsSndStd` the same for `s.tunits[1]`
(PutRequest.max_idle). -/
inductive Cond where
  | statusEq (n : Nat)
  | tunitsFstStd
  | tunitsSndStd
deriving DecidableEq

/-- Field descriptor: name, wire type, the `optional` flag and the optional
presence condition, as declared on each `m.Message` class in hotrod.py. -/
structure FieldSpec where
  name : String
  type : WType
  optional : Bool
  cond : Option Cond
deriving DecidableEq

/-- Field value slot of a message instance.  `fnone` is Python `None`;
string values are abstracted to their UTF-8 byte sequences (the UTF-8
conversion lives in the missing codec.py). -/
inductive FVal where
  | fnone
  | vByte (n : Nat)
  | vUvarint (n : Nat)
  | vUvarlong (n : Nat)
  | vBytes (bs : List Nat)
  | vString (s : List Nat)
  | vSplit (a b : Nat)
  | vComp (sub : List (FieldSpec × FVal))

/-- A message instance: the ordered field table of a `messenger.Message`,
each declared field paired with its current value. -/
abbrev Fields := List (FieldSpec × FVal)

def FVal.isNone : FVal → Bool
  | .fnone => true
  | _ => false

/-- Looks up the value of a named field of a message (Python `getattr`). -/
def lookupField : Fields → String → Option FVal
  | [], _ => none
  | (spec, v) :: rest, fname =>
    if spec.name = fname then some v else lookupField rest fname

/-- Replaces the value of a named field of a message (Python `setattr`). -/
def setFieldVal (msg : Fields) (fname : String) (v : FVal) : Fields :=
  msg.map fun p => if p.1.name = fname then (p.1, v) else p

/-- Evaluates a presence condition on a message, mirroring the lambdas in
hotrod.py.  A lookup that Python would crash on (missing or `None` field)
evaluates to `false`; no modeled encode/decode run reaches that case. -/
def evalCond : Cond → Fields → Bool
  | .statusEq n, msg =>
    match lookupField msg "header" with
    | some (.vComp h) =>
      match lookupField h "status" with
      | some (.vByte s) => s = n
      | _ => false
    | _ => false
  | .tunitsFstStd, msg =>
    match lookupField msg "tunits" with
    | some (.vSplit a _) => ¬(a = 7 ∨ a = 8)
    | _ => false
  | .tunitsSndStd, msg =>
    match lookupField msg "tunits" with
    | some (.vSplit _ b) => ¬(b = 7 ∨ b = 8)
    | _ => false

/-- Condition check of `Protocol._encode`/`_decode`: a field with no
condition is always present. -/
def condHolds : Option Cond → Fields → Bool
  | none, _ => true
  | some c, msg => evalCond c msg

/-- Encode error of `error.EncodeError`: raised by `Protocol._encode` when a
required (non-optional) field is `None`; carries the field name. -/
inductive EncErr where
  | required (fname : String)
deriving DecidableEq

/-- Decode error of `error.DecodeError`: an opcode with no registered
Response shape, or a truncated input stream. -/
inductive DecErr where
  | unsupported (op : Nat)
  | truncated
deriving DecidableEq

/-- Modelled from the spec: byte output of one primitive `codec.Encoder`
call on a `None` value (codec.py is not among the sources).  Only the
length-prefixed string case is exercised by the modeled shapes (the
optional `cname`): an absent string is written as the single length byte
0. -/
def encodeNone : WType → List Nat
  | .wstring => [0]
  | _ => []

/-- Modelled from the spec: one primitive `codec.Encoder` call (codec.py is
not among the sources).  Byte: one 8-bit unit; varint/varlong: base-128
groups; bytes/string: varint length then the raw bytes; split byte: the
two values packed into the high and low nibble.  Ill-typed combinations
(which Python would crash on) yield no bytes; no modeled shape reaches
them. -/
def encodeTok : WType → FVal → List Nat
  | .byte, .vByte n => [n % 256]
  | .uvarint, .vUvarint n => uvarint n
  | .uvarlong, .vUvarlong n => uvarint n
  | .bytes, .vBytes bs => uvarint bs.length ++ bs
  | .wstring, .vString s => uvarint s.length ++ s
  | .splitByte, .vSplit a b => [(a % 16) * 16 + b % 16]
  | t, .fnone => encodeNone t
  | _, _ => []

/-- The field loop of `Protocol._encode` (hotrod.py:221-240): for each
declared field in order, skip it if its condition is false; raise
`EncodeError` if it is `None` and not optional; recurse on a composite;
otherwise apply the wire-type encoder.  `msg` is the whole message the
conditions are evaluated on, `rest` the fields still to process. -/
def encodeLoop (msg : Fields) : Fields → Except EncErr (List Nat)
  | [] => .ok []
  | (spec, v) :: rest =>
    if condHolds spec.cond msg = false then
      encodeLoop msg rest
    else if v.isNone && !spec.optional then
      .error (.required spec.name)
    else
      match spec.type, v with
      | .composite, .vComp sub =>
        match encodeLoop sub sub, encodeLoop msg rest with
        | .ok bs1, .ok bs2 => .ok (bs1 ++ bs2)
        | .error e, _ => .error e
        | .ok _, .error e => .error e
      | t, w =>
        match encodeLoop msg rest with
        | .ok bs => .ok (encodeTok t w ++ bs)
        | .error e => .error e
termination_by rest => sizeOf rest
decreasing_by all_goals (simp_wf; try omega)

/-- `Protocol.encode` (hotrod.py:183-190): runs `_encode` on a fresh
encoder and returns the accumulated bytes. -/
def Protocol.encode (msg : Fields) : Except EncErr (List Nat) :=
  encodeLoop msg msg

/-- The claim's error characterisation: some field (possibly inside a
composite whose own condition is true) is `None`, not optional, and its
condition evaluates to true on its message. -/
def hasMissingRequired (msg : Fields) : Fields → Bool
  | [] => false
  | (spec, v) :: rest =>
    (condHolds spec.cond msg &&
      ((v.isNone && !spec.optional) ||
        (match spec.type, v with
         | .composite, .vComp sub => hasMissingRequired sub sub
         | _, _ => false)))
    || hasMissingRequired msg rest
termination_by rest => sizeOf rest
decreasing_by all_goals (simp_wf; try omega)

/-- Modelled from the spec: one primitive `codec.Decoder` call (codec.py is
not among the sources).  Inverse of `encodeTok`; fails (`DecodeError`) on
a truncated stream. -/
def decodeTok : WType → List Nat → Option (FVal × List Nat)
  | .byte, b :: rest => some (.vByte b, rest)
  | .uvarint, data =>
    match decodeUvarint data with
    | some (n, r) => some (.vUvarint n, r)
    | none => none
  | .uvarlong, data =>
    match decodeUvarint data with
    | some (n, r) => some (.vUvarlong n, r)
    | none => none
  | .bytes, data =>
    match decodeUvarint data with
    | some (n, r) => if n ≤ r.length then some (.vBytes (r.take n), r.drop n) else none
    | none => none
  | .wstring, data =>
    match decodeUvarint data with
    | some (n, r) => if n ≤ r.length then some (.vString (r.take n), r.drop n) else none
    | none => none
  | .splitByte, b :: rest => some (.vSplit (b / 16) (b % 16), rest)
  | _, _ => none

/-- The field loop of `Protocol._decode` (hotrod.py:242-255): for each
remaining field in order, skip it if its condition (evaluated on the
partially decoded message) is false; recurse on a composite; otherwise
read one value with the wire-type decoder and store it.  `pre` holds the
already processed fields (including any skipped prefix), `rest` the fields
still to process. -/
def decodeLoop (pre : Fields) (rest : Fields) (data : List Nat) :
    Except DecErr (Fields × List Nat) :=
  match rest with
  | [] => .ok (pre, data)
  | (spec, v) :: rest' =>
    if condHolds spec.cond (pre ++ (spec, v) :: rest') = false then
      decodeLoop (pre ++ [(spec, v)]) rest' data
    else
      match spec.type, v with
      | .composite, .vComp sub =>
        match decodeLoop [] sub data with
        | .ok (sub2, data2) => decodeLoop (pre ++ [(spec, .vComp sub2)]) rest' data2
        | .error e => .error e
      | t, _ =>
        match decodeTok t data with
        | some (w, data2) => decodeLoop (pre ++ [(spec, w)]) rest' data2
        | none => .error .truncated
termination_by sizeOf rest
decreasing_by all_goals (simp_wf; try omega)

/-- Field descriptors of `RequestHeader` (hotrod.py:52-61) paired with the
given values: magic (default 0xA0), id, version (default 25), op, the
optional cname, flags (default 0), client intelligence (default BASIC=1),
topology id (default 0). -/
def requestHeaderWith (id op cname flags ci tid : FVal) : Fields :=
  [ (⟨"magic", .byte, false, none⟩, .vByte 0xA0),
    (⟨"id", .uvarlong, false, none⟩, id),
    (⟨"version", .byte, false, none⟩, .vByte 25),
    (⟨"op", .byte, false, none⟩, op),
    (⟨"cname", .wstring, true, none⟩, cname),
    (⟨"flags", .uvarint, false, none⟩, flags),
    (⟨"ci", .byte, false, none⟩, ci),
    (⟨"t_id", .uvarint, false, none⟩, tid) ]

/-- A `RequestHeader` with id and opcode set and every other field at its
declared default (`cname` unset). -/
def requestHeader (id op : Nat) : Fields :=
  requestHeaderWith (.vUvarlong id) (.vByte op) .fnone (.vUvarint 0) (.vByte 1)
    (.vUvarint 0)

/-- Field descriptors of `ResponseHeader` (hotrod.py:63-68) paired with the
given values: magic (default 0xA1), id, op, status (default OK=0),
topology change marker (default 0). -/
def responseHeaderWith (magic id op status tcm : FVal) : Fields :=
  [ (⟨"magic", .byte, false, none⟩, magic),
    (⟨"id", .uvarlong, false, none⟩, id),
    (⟨"op", .byte, false, none⟩, op),
    (⟨"status", .byte, false, none⟩, status),
    (⟨"tcm", .byte, false, none⟩, tcm) ]

/-- A fully set `ResponseHeader` with the declared magic 0xA1. -/
def responseHeader (id op status tcm : Nat) : Fields :=
  responseHeaderWith (.vByte 0xA1) (.vUvarlong id) (.vByte op) (.vByte status)
    (.vByte tcm)

/-- A fresh `ResponseHeader()` as built at the start of `Protocol.decode`:
defaults applied, `id` and `op` unset. -/
def freshResponseHeader : Fields :=
  responseHeaderWith (.vByte 0xA1) .fnone .fnone (.vByte 0) (.vByte 0)

/-- The `header` composite field shared by every Request and Response
shape (hotrod.py:71-84). -/
def headerField (h : Fields) : FieldSpec × FVal :=
  (⟨"header", .composite, false, none⟩, .vComp h)

/-- `GetRequest` (OP_CODE 0x03) with its header id set (as `Protocol.send`
does) and the key field holding `key`. -/
def getRequest (id : Nat) (key : FVal) : Fields :=
  [ headerField (requestHeader id 0x03),
    (⟨"key", .bytes, false, none⟩, key) ]

/-- `PutRequest` (OP_CODE 0x01): key, packed time units, lifespan
(condition: tunits[0] not DEFAULT/INFINITE), max_idle (condition:
tunits[1] not DEFAULT/INFINITE), value. -/
def putRequest (id : Nat) (key : FVal) (t0 t1 : Nat) (lifespan maxIdle val : FVal) :
    Fields :=
  [ headerField (requestHeader id 0x01),
    (⟨"key", .bytes, false, none⟩, key),
    (⟨"tunits", .splitByte, false, none⟩, .vSplit t0 t1),
    (⟨"lifespan", .uvarint, false, some .tunitsFstStd⟩, lifespan),
    (⟨"max_idle", .uvarint, false, some .tunitsSndStd⟩, maxIdle),
    (⟨"value", .bytes, false, none⟩, val) ]

/-- `PingRequest` (OP_CODE 0x17): header only. -/
def pingRequest (id : Nat) : Fields :=
  [ headerField (requestHeader id 0x17) ]

/-- `RemoveRequest` (OP_CODE 0x0B). -/
def removeRequest (id : Nat) (key : FVal) : Fields :=
  [ headerField (requestHeader id 0x0B),
    (⟨"key", .bytes, false, none⟩, key) ]

/-- `ContainsKeyRequest` (OP_CODE 0x0F). -/
def containsKeyRequest (id : Nat) (key : FVal) : Fields :=
  [ headerField (requestHeader id 0x0F),
    (⟨"key", .bytes, false, none⟩, key) ]

/-- `GetResponse` (OP_CODE 0x04): value, present when status is OK. -/
def getResponse (h : Fields) (value : FVal) : Fields :=
  [ headerField h, (⟨"value", .bytes, false, some (.statusEq 0)⟩, value) ]

/-- `PutResponse` (OP_CODE 0x02): prev_value, present when status is
OK_WITH_VALUE (0x03). -/
def putResponse (h : Fields) (prevValue : FVal) : Fields :=
  [ headerField h, (⟨"prev_value", .bytes, false, some (.statusEq 3)⟩, prevValue) ]

/-- `PingResponse` (OP_CODE 0x18): header only. -/
def pingResponse (h : Fields) : Fields :=
  [ headerField h ]

/-- `ErrorResponse` (OP_CODE 0x50): an unconditional string message. -/
def errorResponse (h : Fields) (errorMessage : FVal) : Fields :=
  [ headerField h, (⟨"error_message", .wstring, false, none⟩, errorMessage) ]

/-- `RemoveResponse` (OP_CODE 0x0C): prev_value, present when status is
OK_WITH_VALUE (0x03). -/
def removeResponse (h : Fields) (prevValue : FVal) : Fields :=
  [ headerField h, (⟨"prev_value", .bytes, false, some (.statusEq 3)⟩, prevValue) ]

/-- `ContainsKeyResponse` (OP_CODE 0x10): header only. -/
def containsKeyResponse (h : Fields) : Fields :=
  [ headerField h ]

/-- The `Response.__subclasses__()` scan of `Protocol.decode`
(hotrod.py:204-206): builds the Response shape registered for the opcode,
seeded with the decoded header (the shape constructor re-sets `header.op`
to its own opcode) and with every opcode-specific field fresh (`None`).
Returns `none` for an unregistered opcode. -/
def mkResponse (op : Nat) (rh : Fields) : Option Fields :=
  if op = 0x04 then some (getResponse (setFieldVal rh "op" (.vByte 0x04)) .fnone)
  else if op = 0x02 then some (putResponse (setFieldVal rh "op" (.vByte 0x02)) .fnone)
  else if op = 0x18 then some (pingResponse (setFieldVal rh "op" (.vByte 0x18)))
  else if op = 0x50 then some (errorResponse (setFieldVal rh "op" (.vByte 0x50)) .fnone)
  else if op = 0x0C then some (removeResponse (setFieldVal rh "op" (.vByte 0x0C)) .fnone)
  else if op = 0x10 then some (containsKeyResponse (setFieldVal rh "op" (.vByte 0x10)))
  else none

/-- The `op` byte of a decoded message's field table (`rh.op` in
`Protocol.decode`). -/
def getByteField (msg : Fields) (fname : String) : Option Nat :=
  match lookupField msg fname with
  | some (.vByte n) => some n
  | _ => none

/-- Phase 2 of `Protocol.decode`: dispatch on the decoded opcode to the
registered Response shape (`DecodeError` when there is none), then decode
the remaining fields with the header field (`skip_fields=1`) skipped.
`rh` is the decoded header, `rest` the bytes after it.  The result drops
the leftover bytes (trailing data is ignored). -/
def respDispatch (rh : Fields) (rest : List Nat) : Except DecErr Fields :=
  match getByteField rh "op" with
  | none => .error (.unsupported 0)
  | some op =>
    match mkResponse op rh with
    | none => .error (.unsupported op)
    | some [] => .error (.unsupported op)
    | some (hf :: shapeRest) => (decodeLoop [hf] shapeRest rest).map Prod.fst

/-- `Protocol.decode` (hotrod.py:192-219): decode a fresh `ResponseHeader`
from the stream, then dispatch on its opcode and decode the rest. -/
def Protocol.decode (data : List Nat) : Except DecErr Fields :=
  (decodeLoop [] freshResponseHeader data).bind fun p => respDispatch p.1 p.2

@[simp] theorem except_bind_ok {α β ε : Type _} (a : α) (f : α → Except ε β) :
    Except.bind (.ok a) f = f a := rfl

@[simp] theorem except_bind_error {α β ε : Type _} (e : ε) (f : α → Except ε β) :
    Except.bind (.error e) f = (.error e : Except ε β) := rfl

@[simp] theorem except_map_ok {α β ε : Type _} (f : α → β) (a : α) :
    Except.map f (.ok a : Except ε α) = .ok (f a) := rfl

@[simp] theorem except_map_error {α β ε : Type _} (f : α → β) (e : ε) :
    Except.map f (.error e : Except ε α) = (.error e : Except ε β) := rfl

/-- `request.header.id = req_id` in `Protocol.send` (hotrod.py:171). -/
def setHeaderId (msg : Fields) (n : Nat) : Fields :=
  msg.map fun p =>
    if p.1.name = "header" then
      match p.2 with
      | .vComp h => (p.1, .vComp (setFieldVal h "id" (.vUvarlong n)))
      | w => (p.1, w)
    else p

/-- The id carried in a message's header, when set. -/
def headerId (msg : Fields) : Option Nat :=
  match lookupField msg "header" with
  | some (.vComp h) =>
    match lookupField h "id" with
    | some (.vUvarlong n) => some n
    | _ => none
  | _ => none

/-- Mutable state of a `Protocol` instance: the `_id` counter and the
`_resps` dictionary (hotrod.py:159-160), the dictionary as an
insertion-ordered association list. -/
structure ProtState where
  nextId : Nat
  resps : List (Nat × Fields)

/-- Python dictionary read `d.get(k)` over the `_resps` table. -/
def dictGet : List (Nat × Fields) → Nat → Option Fields
  | [], _ => none
  | (k, v) :: rest, q => if k = q then some v else dictGet rest q

/-- Replaces the binding of key `k` in an association list. -/
def dictReplace : List (Nat × Fields) → Nat → Fields → List (Nat × Fields)
  | [], _, _ => []
  | (a, b) :: t, k, v =>
    if a = k then (k, v) :: dictReplace t k v else (a, b) :: dictReplace t k v

/-- Python dictionary assignment `d[k] = v`: replace an existing binding,
else append a new one. -/
def dictSet (rs : List (Nat × Fields)) (k : Nat) (v : Fields) : List (Nat × Fields) :=
  if (dictGet rs k).isSome then dictReplace rs k v
  else rs ++ [(k, v)]

/-- Error outcomes of one `Protocol.send` call: an `EncodeError` from
encoding the request, a `DecodeError` from decoding a received frame, or a
receive with no frame left (a blocked/failed `conn.recv`). -/
inductive SendErr where
  | enc (fname : String)
  | dec (e : DecErr)
  | noFrame
deriving DecidableEq

/-- The polling loop of `Protocol.send` (hotrod.py:176-180): while the
caller's own `req_id` is not a key of `_resps`, receive one frame, decode
it, and store the decoded response in `_resps` under `req_id` (the
polling caller's id).  `frames` is the queue of frames the connection
will deliver. -/
def recvLoop (reqId : Nat) (rs : List (Nat × Fields)) (frames : List (List Nat)) :
    Except SendErr (List (Nat × Fields) × List (List Nat)) :=
  if (dictGet rs reqId).isSome then .ok (rs, frames)
  else
    match frames with
    | [] => .error .noFrame
    | f :: fs =>
      match Protocol.decode f with
      | .error e => .error (.dec e)
      | .ok resp => recvLoop reqId (dictSet rs reqId resp) fs
termination_by frames.length
decreasing_by simp_wf

/-- `Protocol.send` (hotrod.py:162-181): allocate the next id under the
lock, store it in the request header, encode, write the bytes to the
connection, then poll until the id is a key of `_resps` and return that
entry (which is not removed).  The first component is the outcome with
the response, the successor state and the frames left unread; the second
component lists the byte strings passed to `conn.send`. -/
def Protocol.send (st : ProtState) (frames : List (List Nat)) (request : Fields) :
    Except SendErr (Fields × ProtState × List (List Nat)) × List (List Nat) :=
  match Protocol.encode (setHeaderId request (st.nextId + 1)) with
  | .error (.required f) => (.error (.enc f), [])
  | .ok bs =>
    ((recvLoop (st.nextId + 1) st.resps frames).bind fun p =>
      match dictGet p.1 (st.nextId + 1) with
      | some resp => .ok (resp, ⟨st.nextId + 1, p.1⟩, p.2)
      | none => .error .noFrame, [bs])

/-- Modelled from the spec: lifecycle states of a `ResponseStream`
(connection.py is not among the sources): idle (created, not yet
advanced), reading (first advance marked the connection busy), finished
(completed normally), cancelled (terminated early). -/
inductive StreamPhase where
  | idle
  | reading
  | finished
  | cancelled
deriving DecidableEq

/-- Modelled from the spec: a `ResponseStream` bound to one pooled
connection (connection.py is not among the sources). -/
structure PoolStream where
  connIdx : Nat
  phase : StreamPhase
deriving DecidableEq

/-- Modelled from the spec: a `ConnectionPool` (connection.py is not among
the sources): a fixed set of connections with per-connection busy flags,
plus the response streams handed out by `recv`. -/
structure PoolSt where
  size : Nat
  busy : List Bool
  streams : List PoolStream
deriving DecidableEq

/-- Streams that are advanced at least once and neither completed nor
cancelled. -/
def PoolStream.isReading (s : PoolStream) : Bool :=
  s.phase == StreamPhase.reading

/-- Streams not yet completed or cancelled (a pool slot is bound to at most
one such stream). -/
def PoolStream.unfinished (s : PoolStream) : Bool :=
  s.phase == StreamPhase.idle || s.phase == StreamPhase.reading

/-- The pool's `available` count: connections whose busy flag is clear. -/
def PoolSt.available (st : PoolSt) : Nat :=
  st.busy.countP (fun b => !b)

/-- Number of streams currently advanced-but-not-yet-completed. -/
def PoolSt.readingCount (st : PoolSt) : Nat :=
  st.streams.countP PoolStream.isReading

/-- A freshly connected pool of `n` connections: none busy, no streams. -/
def initPool (n : Nat) : PoolSt :=
  ⟨n, List.replicate n false, []⟩

/-- Modelled from the spec: the operations of the `ConnectionPool` and its
response streams.  `send` writes on connection `i`; `recv i` creates a
stream bound to connection `i`; `advance k` is one `next()` on stream `k`;
`finish k` is its normal end of data (StopIteration); `cancel k` is early
termination (`send(0)`). -/
inductive PoolAct where
  | send (i : Nat)
  | recv (i : Nat)
  | advance (k : Nat)
  | finish (k : Nat)
  | cancel (k : Nat)

/-- Modelled from the spec: one pool operation as a state transition;
`none` when the operation is invalid in the state (bad index, advancing a
terminated stream, or binding a second unfinished stream to a connection
— a pool slot is bound to at most one unfinished response stream at a
time).  Sends and stream creation leave the busy flags unchanged; a
stream's first advance sets its connection busy; completion and
cancellation clear it. -/
def PoolSt.step (st : PoolSt) : PoolAct → Option PoolSt
  | .send i => if i < st.size then some st else none
  | .recv i =>
    if i < st.size &&
        st.streams.all (fun s => !(s.connIdx == i && s.unfinished)) then
      some { st with streams := st.streams ++ [⟨i, .idle⟩] }
    else none
  | .advance k =>
    match st.streams.get? k with
    | some s =>
      match s.phase with
      | .idle => some { st with busy := st.busy.set s.connIdx true,
                                streams := st.streams.set k ⟨s.connIdx, .reading⟩ }
      | .reading => some st
      | _ => none
    | none => none
  | .finish k =>
    match st.streams.get? k with
    | some s =>
      match s.phase with
      | .reading => some { st with busy := st.busy.set s.connIdx false,
                                   streams := st.streams.set k ⟨s.connIdx, .finished⟩ }
      | _ => none
    | none => none
  | .cancel k =>
    match st.streams.get? k with
    | some s =>
      match s.phase with
      | .idle => some { st with streams := st.streams.set k ⟨s.connIdx, .cancelled⟩ }
      | .reading => some { st with busy := st.busy.set s.connIdx false,
                                   streams := st.streams.set k ⟨s.connIdx, .cancelled⟩ }
      | _ => none
    | none => none

/-- Runs a list of pool operations from a state. -/
def runActs (st : PoolSt) : List PoolAct → Option PoolSt
  | [] => some st
  | a :: rest =>
    match st.step a with
    | some st' => runActs st' rest
    | none => none

/-- States of a connection pool reachable from a freshly connected pool. -/
inductive PoolReachable : PoolSt → Prop
  | init (n : Nat) : PoolReachable (initPool n)
  | step {st st' : PoolSt} {act : PoolAct} :
      PoolReachable st → st.step act = some st' → PoolReachable st'

theorem decodeUvarint_uvarint (n : Nat) (rest : List Nat) :
    decodeUvarint (uvarint n ++ rest) = some (n, rest) := by
  induction n using Nat.strong_induction_on with
  | _ n ih =>
    by_cases h : n < 128
    · rw [uvarint, if_pos h]
      simp [decodeUvarint, h]
    · rw [uvarint, if_neg h]
      simp only [List.cons_append, decodeUvarint, List.append_eq]
      rw [if_neg (by omega), ih (n / 128) (Nat.div_lt_self (by omega) (by omega))]
      simp only [Option.some.injEq, Prod.mk.injEq, and_true]
      omega

@[simp] theorem uvarint_small (n : Nat) (h : n < 128) : uvarint n = [n] := by
  rw [uvarint, if_pos h]

/-- Claim C7: encoding a `PingRequest` with id 1 and every other header
field at its default yields exactly the bytes `A0 01 19 17 00 00 01 00`,
and decoding the byte stream `A1 01 18 00 00` yields a `PingResponse`
whose header status is OK (0x00). -/
theorem ping_concrete_scenario :
    Protocol.encode (pingRequest 1) = .ok [0xA0, 0x01, 0x19, 0x17, 0x00, 0x00, 0x01, 0x00] ∧
    Protocol.decode [0xA1, 0x01, 0x18, 0x00, 0x00] = .ok (pingResponse (responseHeader 1 0x18 0 0)) := by
  constructor
  · simp [Protocol.encode, pingRequest, requestHeader, requestHeaderWith, headerField,
      encodeLoop, condHolds, encodeTok, encodeNone, FVal.isNone]
  · simp [Protocol.decode, freshResponseHeader, responseHeaderWith, responseHeader,
      pingResponse, headerField, decodeLoop, condHolds, decodeTok, decodeUvarint,
      lookupField, mkResponse, setFieldVal, respDispatch, getByteField]

theorem encode_pingRequest (id : Nat) :
    Protocol.encode (pingRequest id) = .ok (160 :: uvarint id ++ [25, 23, 0, 0, 1, 0]) := by
  simp [Protocol.encode, pingRequest, requestHeader, requestHeaderWith, headerField,
    encodeLoop, condHolds, encodeTok, encodeNone, FVal.isNone]

theorem encode_getRequest (id : Nat) (key : List Nat) :
    Protocol.encode (getRequest id (.vBytes key)) =
      .ok (160 :: uvarint id ++ 25 :: 3 :: 0 :: 0 :: 1 :: 0 ::
        (uvarint key.length ++ key)) := by
  simp [Protocol.encode, getRequest, requestHeader, requestHeaderWith, headerField,
    encodeLoop, condHolds, encodeTok, encodeNone, FVal.isNone]

theorem encode_putRequest (id t0 t1 ls mi : Nat) (key val : List Nat) :
    Protocol.encode (putRequest id (.vBytes key) t0 t1 (.vUvarint ls) (.vUvarint mi)
        (.vBytes val)) =
      .ok (160 :: uvarint id ++ 25 :: 1 :: 0 :: 0 :: 1 :: 0 ::
        (uvarint key.length ++ key ++
          ((t0 % 16) * 16 + t1 % 16) ::
          ((if t0 = 7 ∨ t0 = 8 then [] else uvarint ls) ++
            ((if t1 = 7 ∨ t1 = 8 then [] else uvarint mi) ++
              (uvarint val.length ++ val))))) := by
  by_cases h0 : t0 = 7 ∨ t0 = 8 <;> by_cases h1 : t1 = 7 ∨ t1 = 8 <;>
    simp [Protocol.encode, putRequest, requestHeader, requestHeaderWith, headerField,
      encodeLoop, condHolds, evalCond, lookupField, encodeTok, encodeNone, FVal.isNone,
      h0, h1]

theorem encode_pingResponse (id st tcm : Nat) :
    Protocol.encode (pingResponse (responseHeader id 0x18 st tcm)) =
      .ok (161 :: uvarint id ++ [24, st % 256, tcm % 256]) := by
  simp [Protocol.encode, pingResponse, responseHeader, responseHeaderWith, headerField,
    encodeLoop, condHolds, encodeTok, encodeNone, FVal.isNone]

theorem encode_containsKeyResponse (id st tcm : Nat) :
    Protocol.encode (containsKeyResponse (responseHeader id 0x10 st tcm)) =
      .ok (161 :: uvarint id ++ [16, st % 256, tcm % 256]) := by
  simp [Protocol.encode, containsKeyResponse, responseHeader, responseHeaderWith,
    headerField, encodeLoop, condHolds, encodeTok, encodeNone, FVal.isNone]

theorem encode_getResponse (id tcm : Nat) (bs : List Nat) :
    Protocol.encode (getResponse (responseHeader id 0x04 0 tcm) (.vBytes bs)) =
      .ok (161 :: uvarint id ++ 4 :: 0 :: tcm % 256 :: (uvarint bs.length ++ bs)) := by
  simp [Protocol.encode, getResponse, responseHeader, responseHeaderWith, headerField,
    encodeLoop, condHolds, evalCond, lookupField, encodeTok, encodeNone, FVal.isNone]

theorem encode_putResponse (id tcm : Nat) (bs : List Nat) :
    Protocol.encode (putResponse (responseHeader id 0x02 3 tcm) (.vBytes bs)) =
      .ok (161 :: uvarint id ++ 2 :: 3 :: tcm % 256 :: (uvarint bs.length ++ bs)) := by
  simp [Protocol.encode, putResponse, responseHeader, responseHeaderWith, headerField,
    encodeLoop, condHolds, evalCond, lookupField, encodeTok, encodeNone, FVal.isNone]

theorem encode_removeResponse (id tcm : Nat) (bs : List Nat) :
    Protocol.encode (removeResponse (responseHeader id 0x0C 3 tcm) (.vBytes bs)) =
      .ok (161 :: uvarint id ++ 12 :: 3 :: tcm % 256 :: (uvarint bs.length ++ bs)) := by
  simp [Protocol.encode, removeResponse, responseHeader, responseHeaderWith, headerField,
    encodeLoop, condHolds, evalCond, lookupField, encodeTok, encodeNone, FVal.isNone]

theorem encode_errorResponse (id st tcm : Nat) (s : List Nat) :
    Protocol.encode (errorResponse (responseHeader id 0x50 st tcm) (.vString s)) =
      .ok (161 :: uvarint id ++ 80 :: st % 256 :: tcm % 256 ::
        (uvarint s.length ++ s)) := by
  simp [Protocol.encode, errorResponse, responseHeader, responseHeaderWith, headerField,
    encodeLoop, condHolds, encodeTok, encodeNone, FVal.isNone]

theorem decodeLoop_freshHeader (m id o s t : Nat) (rest : List Nat) :
    decodeLoop [] freshResponseHeader (m :: uvarint id ++ o :: s :: t :: rest) =
      .ok (responseHeaderWith (.vByte m) (.vUvarlong id) (.vByte o) (.vByte s)
        (.vByte t), rest) := by
  simp [decodeLoop, freshResponseHeader, responseHeaderWith, condHolds, decodeTok,
    decodeUvarint_uvarint]

theorem decode_pingResponse (id st tcm : Nat) (rest : List Nat) :
    Protocol.decode (161 :: uvarint id ++ 24 :: st :: tcm :: rest) =
      .ok (pingResponse (responseHeader id 0x18 st tcm)) := by
  simp only [Protocol.decode, decodeLoop_freshHeader, except_bind_ok]
  simp [respDispatch, getByteField,
    lookupField, responseHeaderWith, responseHeader, mkResponse, setFieldVal,
    pingResponse, headerField, decodeLoop]

theorem decode_containsKeyResponse (id st tcm : Nat) (rest : List Nat) :
    Protocol.decode (161 :: uvarint id ++ 16 :: st :: tcm :: rest) =
      .ok (containsKeyResponse (responseHeader id 0x10 st tcm)) := by
  simp only [Protocol.decode, decodeLoop_freshHeader, except_bind_ok]
  simp [respDispatch, getByteField,
    lookupField, responseHeaderWith, responseHeader, mkResponse, setFieldVal,
    containsKeyResponse, headerField, decodeLoop]

theorem decode_getResponse (id tcm : Nat) (bs rest : List Nat) :
    Protocol.decode (161 :: uvarint id ++ 4 :: 0 :: tcm ::
        (uvarint bs.length ++ (bs ++ rest))) =
      .ok (getResponse (responseHeader id 0x04 0 tcm) (.vBytes bs)) := by
  simp only [Protocol.decode, decodeLoop_freshHeader, except_bind_ok]
  simp [respDispatch, getByteField,
    lookupField, responseHeaderWith, responseHeader, mkResponse, setFieldVal,
    getResponse, headerField, decodeLoop, condHolds, evalCond, decodeTok,
    decodeUvarint_uvarint, List.take_left, List.drop_left]

theorem decode_putResponse (id tcm : Nat) (bs rest : List Nat) :
    Protocol.decode (161 :: uvarint id ++ 2 :: 3 :: tcm ::
        (uvarint bs.length ++ (bs ++ rest))) =
      .ok (putResponse (responseHeader id 0x02 3 tcm) (.vBytes bs)) := by
  simp only [Protocol.decode, decodeLoop_freshHeader, except_bind_ok]
  simp [respDispatch, getByteField,
    lookupField, responseHeaderWith, responseHeader, mkResponse, setFieldVal,
    putResponse, headerField, decodeLoop, condHolds, evalCond, decodeTok,
    decodeUvarint_uvarint, List.take_left, List.drop_left]

theorem decode_removeResponse (id tcm : Nat) (bs rest : List Nat) :
    Protocol.decode (161 :: uvarint id ++ 12 :: 3 :: tcm ::
        (uvarint bs.length ++ (bs ++ rest))) =
      .ok (removeResponse (responseHeader id 0x0C 3 tcm) (.vBytes bs)) := by
  simp only [Protocol.decode, decodeLoop_freshHeader, except_bind_ok]
  simp [respDispatch, getByteField,
    lookupField, responseHeaderWith, responseHeader, mkResponse, setFieldVal,
    removeResponse, headerField, decodeLoop, condHolds, evalCond, decodeTok,
    decodeUvarint_uvarint, List.take_left, List.drop_left]

theorem decode_errorResponse (id st tcm : Nat) (s rest : List Nat) :
    Protocol.decode (161 :: uvarint id ++ 80 :: st :: tcm ::
        (uvarint s.length ++ (s ++ rest))) =
      .ok (errorResponse (responseHeader id 0x50 st tcm) (.vString s)) := by
  simp only [Protocol.decode, decodeLoop_freshHeader, except_bind_ok]
  simp [respDispatch, getByteField,
    lookupField, responseHeaderWith, responseHeader, mkResponse, setFieldVal,
    errorResponse, headerField, decodeLoop, condHolds, decodeTok,
    decodeUvarint_uvarint, List.take_left, List.drop_left]

theorem decode_unregistered (id op st tcm : Nat) (rest : List Nat)
    (h2 : op ≠ 0x02) (h4 : op ≠ 0x04) (h12 : op ≠ 0x0C) (h16 : op ≠ 0x10)
    (h24 : op ≠ 0x18) (h80 : op ≠ 0x50) :
    Protocol.decode (161 :: uvarint id ++ op :: st :: tcm :: rest) =
      .error (.unsupported op) := by
  simp only [Protocol.decode, decodeLoop_freshHeader, except_bind_ok]
  simp [respDispatch, getByteField,
    lookupField, responseHeaderWith, mkResponse, h2, h4, h12, h16, h24, h80]

/-- Claim C3: decoding dispatches on the opcode in the response header:
opcode 0x04 yields a `GetResponse`, opcode 0x50 yields an `ErrorResponse`
whose `error_message` is a decoded string, and an opcode with no
registered Response shape makes decode fail with a `DecodeError`. -/
theorem decode_dispatch_by_opcode :
    (∀ (id tcm : Nat) (bs rest : List Nat),
        Protocol.decode (161 :: uvarint id ++ 4 :: 0 :: tcm ::
            (uvarint bs.length ++ (bs ++ rest))) =
          .ok (getResponse (responseHeader id 0x04 0 tcm) (.vBytes bs))) ∧
    (∀ (id st tcm : Nat) (s rest : List Nat),
        Protocol.decode (161 :: uvarint id ++ 80 :: st :: tcm ::
            (uvarint s.length ++ (s ++ rest))) =
          .ok (errorResponse (responseHeader id 0x50 st tcm) (.vString s))) ∧
    (∀ (id op st tcm : Nat) (rest : List Nat),
        op ≠ 0x02 → op ≠ 0x04 → op ≠ 0x0C → op ≠ 0x10 → op ≠ 0x18 → op ≠ 0x50 →
        Protocol.decode (161 :: uvarint id ++ op :: st :: tcm :: rest) =
          .error (.unsupported op)) :=
  ⟨decode_getResponse, decode_errorResponse, decode_unregistered⟩

theorem decode_dispatch_by_opcode_witness :
    Protocol.decode [161, 1, 4, 0, 0, 1, 65] =
      .ok (getResponse (responseHeader 1 0x04 0 0) (.vBytes [65])) ∧
    Protocol.decode [161, 1, 80, 133, 0, 2, 65, 66] =
      .ok (errorResponse (responseHeader 1 0x50 133 0) (.vString [65, 66])) ∧
    Protocol.decode [161, 1, 153, 0, 0] = .error (.unsupported 153) := by
  refine ⟨?_, ?_, ?_⟩
  · have h := decode_dispatch_by_opcode.1 1 0 [65] []
    simpa using h
  · have h := decode_dispatch_by_opcode.2.1 1 133 0 [65, 66] []
    simpa using h
  · have h := decode_dispatch_by_opcode.2.2 1 153 0 0 []
      (by omega) (by omega) (by omega) (by omega) (by omega) (by omega)
    simpa using h

/-- Claim C5: a `PutRequest` whose lifespan time unit is DEFAULT (7) or
INFINITE (8) encodes with no lifespan varint at all, and likewise for
max_idle on its unit; symmetrically, `_decode` under a false condition
leaves the field as it was and consumes no input. -/
theorem conditional_fields_omitted :
    (∀ (id t0 t1 ls mi : Nat) (key val : List Nat), t0 = 7 ∨ t0 = 8 →
        Protocol.encode (putRequest id (.vBytes key) t0 t1 (.vUvarint ls)
            (.vUvarint mi) (.vBytes val)) =
          .ok (160 :: uvarint id ++ 25 :: 1 :: 0 :: 0 :: 1 :: 0 ::
            (uvarint key.length ++ key ++ ((t0 % 16) * 16 + t1 % 16) ::
              ((if t1 = 7 ∨ t1 = 8 then [] else uvarint mi) ++
                (uvarint val.length ++ val))))) ∧
    (∀ (id t0 t1 ls mi : Nat) (key val : List Nat), t1 = 7 ∨ t1 = 8 →
        Protocol.encode (putRequest id (.vBytes key) t0 t1 (.vUvarint ls)
            (.vUvarint mi) (.vBytes val)) =
          .ok (160 :: uvarint id ++ 25 :: 1 :: 0 :: 0 :: 1 :: 0 ::
            (uvarint key.length ++ key ++ ((t0 % 16) * 16 + t1 % 16) ::
              ((if t0 = 7 ∨ t0 = 8 then [] else uvarint ls) ++
                (uvarint val.length ++ val))))) ∧
    (∀ (pre : Fields) (spec : FieldSpec) (v : FVal) (rest : Fields) (data : List Nat),
        condHolds spec.cond (pre ++ (spec, v) :: rest) = false →
        decodeLoop pre ((spec, v) :: rest) data =
          decodeLoop (pre ++ [(spec, v)]) rest data) := by
  refine ⟨?_, ?_, ?_⟩
  · intro id t0 t1 ls mi key val h0
    rw [encode_putRequest]
    simp [h0]
  · intro id t0 t1 ls mi key val h1
    rw [encode_putRequest]
    simp [h1]
  · intro pre spec v rest data h
    rw [decodeLoop.eq_def]
    simp [h]

theorem conditional_fields_omitted_witness :
    Protocol.encode (putRequest 1 (.vBytes [2]) 7 0 (.vUvarint 9) (.vUvarint 5)
        (.vBytes [3])) =
      .ok [160, 1, 25, 1, 0, 0, 1, 0, 1, 2, 112, 5, 1, 3] ∧
    Protocol.encode (putRequest 1 (.vBytes [2]) 0 7 (.vUvarint 9) (.vUvarint 5)
        (.vBytes [3])) =
      .ok [160, 1, 25, 1, 0, 0, 1, 0, 1, 2, 7, 9, 1, 3] ∧
    decodeLoop [headerField (responseHeader 1 4 1 0)]
        [(⟨"value", .bytes, false, some (.statusEq 0)⟩, .fnone)] [99] =
      decodeLoop (headerField (responseHeader 1 4 1 0) ::
        [(⟨"value", .bytes, false, some (.statusEq 0)⟩, .fnone)]) [] [99] := by
  refine ⟨?_, ?_, ?_⟩
  · have h := conditional_fields_omitted.1 1 7 0 9 5 [2] [3] (Or.inl rfl)
    simpa using h
  · have h := conditional_fields_omitted.2.1 1 0 7 9 5 [2] [3] (Or.inl rfl)
    simpa using h
  · have h := conditional_fields_omitted.2.2 [headerField (responseHeader 1 4 1 0)]
      ⟨"value", .bytes, false, some (.statusEq 0)⟩ .fnone [] [99]
      (by simp [condHolds, evalCond, lookupField, headerField, responseHeader,
        responseHeaderWith])
    simpa using h

/-- Claim C10: an optional field that is unset while its condition holds is
not omitted: `_encode` still invokes the wire-type encoder on the null
value (for the optional string `cname`, one length byte 0); in particular
the `cname` slot occupies one byte in every encoded request. -/
theorem optional_unset_field_still_encoded :
    (∀ (msg rest : Fields) (spec : FieldSpec), spec.optional = true →
        spec.type = .wstring → condHolds spec.cond msg = true →
        encodeLoop msg ((spec, .fnone) :: rest) =
          (encodeLoop msg rest).map (fun bs => 0 :: bs)) ∧
    (∀ (id : Nat) (key : List Nat),
        Protocol.encode (getRequest id (.vBytes key)) =
          .ok (160 :: uvarint id ++ 25 :: 3 :: 0 :: 0 :: 1 :: 0 ::
            (uvarint key.length ++ key))) := by
  refine ⟨?_, encode_getRequest⟩
  intro msg rest spec hopt htype hcond
  rw [encodeLoop.eq_def]
  simp only [hcond, htype, hopt, FVal.isNone, Bool.not_true, Bool.and_false,
    Bool.true_eq_false, if_false]
  cases h : encodeLoop msg rest <;>
    simp [h, encodeTok, encodeNone]

theorem optional_unset_field_still_encoded_witness :
    encodeLoop (requestHeader 1 23)
        ((⟨"cname", .wstring, true, none⟩, .fnone) ::
          [(⟨"flags", .uvarint, false, none⟩, .vUvarint 0),
           (⟨"ci", .byte, false, none⟩, .vByte 1),
           (⟨"t_id", .uvarint, false, none⟩, .vUvarint 0)]) =
      .ok [0, 0, 1, 0] ∧
    Protocol.encode (getRequest 1 (.vBytes [65])) =
      .ok [160, 1, 25, 3, 0, 0, 1, 0, 1, 65] := by
  constructor
  · have h := optional_unset_field_still_encoded.1 (requestHeader 1 23)
      [(⟨"flags", .uvarint, false, none⟩, .vUvarint 0),
       (⟨"ci", .byte, false, none⟩, .vByte 1),
       (⟨"t_id", .uvarint, false, none⟩, .vUvarint 0)]
      ⟨"cname", .wstring, true, none⟩ rfl rfl (by simp [condHolds])
    rw [h]
    simp [encodeLoop, condHolds, encodeTok, FVal.isNone]
  · have h := optional_unset_field_still_encoded.2 1 [65]
    simpa using h

/-- Counterexample to claim C6 as stated: Request shapes do not round-trip
through `Protocol.decode`, which only decodes Response shapes — decoding
an encoded `PingRequest` fails with a `DecodeError` (its version byte 25
is read as an opcode with no registered Response shape). -/
theorem request_roundtrip_fails :
    Protocol.encode (pingRequest 1) = .ok [160, 1, 25, 23, 0, 0, 1, 0] ∧
    Protocol.decode [160, 1, 25, 23, 0, 0, 1, 0] = .error (.unsupported 25) := by
  constructor
  · have h := encode_pingRequest 1
    simpa using h
  · simp [Protocol.decode, freshResponseHeader, responseHeaderWith, decodeLoop,
      condHolds, decodeTok, decodeUvarint, respDispatch, getByteField, lookupField,
      mkResponse]

/-- Claim C6 (amended): for every modeled Response shape with all fields
set, opcode as fixed by its constructor and every conditional field's
condition true, encoding then decoding reproduces the message exactly.
Request shapes are excluded: `Protocol.decode` decodes only Responses. -/
theorem response_roundtrip :
    (∀ (id st tcm : Nat) (bs : List Nat), st < 256 → tcm < 256 →
        Protocol.encode (pingResponse (responseHeader id 0x18 st tcm)) = .ok bs →
        Protocol.decode bs = .ok (pingResponse (responseHeader id 0x18 st tcm))) ∧
    (∀ (id st tcm : Nat) (bs : List Nat), st < 256 → tcm < 256 →
        Protocol.encode (containsKeyResponse (responseHeader id 0x10 st tcm)) = .ok bs →
        Protocol.decode bs = .ok (containsKeyResponse (responseHeader id 0x10 st tcm))) ∧
    (∀ (id tcm : Nat) (v bs : List Nat), tcm < 256 →
        Protocol.encode (getResponse (responseHeader id 0x04 0 tcm) (.vBytes v)) = .ok bs →
        Protocol.decode bs = .ok (getResponse (responseHeader id 0x04 0 tcm) (.vBytes v))) ∧
    (∀ (id tcm : Nat) (v bs : List Nat), tcm < 256 →
        Protocol.encode (putResponse (responseHeader id 0x02 3 tcm) (.vBytes v)) = .ok bs →
        Protocol.decode bs = .ok (putResponse (responseHeader id 0x02 3 tcm) (.vBytes v))) ∧
    (∀ (id tcm : Nat) (v bs : List Nat), tcm < 256 →
        Protocol.encode (removeResponse (responseHeader id 0x0C 3 tcm) (.vBytes v)) = .ok bs →
        Protocol.decode bs = .ok (removeResponse (responseHeader id 0x0C 3 tcm) (.vBytes v))) ∧
    (∀ (id st tcm : Nat) (s bs : List Nat), st < 256 → tcm < 256 →
        Protocol.encode (errorResponse (responseHeader id 0x50 st tcm) (.vString s)) = .ok bs →
        Protocol.decode bs = .ok (errorResponse (responseHeader id 0x50 st tcm) (.vString s))) := by
  refine ⟨?_, ?_, ?_, ?_, ?_, ?_⟩
  · intro id st tcm bs hst htcm henc
    rw [encode_pingResponse] at henc
    cases henc
    rw [Nat.mod_eq_of_lt hst, Nat.mod_eq_of_lt htcm]
    exact decode_pingResponse id st tcm []
  · intro id st tcm bs hst htcm henc
    rw [encode_containsKeyResponse] at henc
    cases henc
    rw [Nat.mod_eq_of_lt hst, Nat.mod_eq_of_lt htcm]
    exact decode_containsKeyResponse id st tcm []
  · intro id tcm v bs htcm henc
    rw [encode_getResponse] at henc
    cases henc
    rw [Nat.mod_eq_of_lt htcm]
    have h := decode_getResponse id tcm v []
    rwa [List.append_nil] at h
  · intro id tcm v bs htcm henc
    rw [encode_putResponse] at henc
    cases henc
    rw [Nat.mod_eq_of_lt htcm]
    have h := decode_putResponse id tcm v []
    rwa [List.append_nil] at h
  · intro id tcm v bs htcm henc
    rw [encode_removeResponse] at henc
    cases henc
    rw [Nat.mod_eq_of_lt htcm]
    have h := decode_removeResponse id tcm v []
    rwa [List.append_nil] at h
  · intro id st tcm s bs hst htcm henc
    rw [encode_errorResponse] at henc
    cases henc
    rw [Nat.mod_eq_of_lt hst, Nat.mod_eq_of_lt htcm]
    have h := decode_errorResponse id st tcm s []
    rwa [List.append_nil] at h

theorem response_roundtrip_witness :
    Protocol.decode [161, 2, 24, 0, 0] =
      .ok (pingResponse (responseHeader 2 0x18 0 0)) ∧
    Protocol.decode [161, 2, 16, 0, 0] =
      .ok (containsKeyResponse (responseHeader 2 0x10 0 0)) ∧
    Protocol.decode [161, 2, 4, 0, 0, 1, 7] =
      .ok (getResponse (responseHeader 2 0x04 0 0) (.vBytes [7])) ∧
    Protocol.decode [161, 2, 2, 3, 0, 1, 7] =
      .ok (putResponse (responseHeader 2 0x02 3 0) (.vBytes [7])) ∧
    Protocol.decode [161, 2, 12, 3, 0, 1, 7] =
      .ok (removeResponse (responseHeader 2 0x0C 3 0) (.vBytes [7])) ∧
    Protocol.decode [161, 2, 80, 0, 0, 1, 7] =
      .ok (errorResponse (responseHeader 2 0x50 0 0) (.vString [7])) := by
  refine ⟨?_, ?_, ?_, ?_, ?_, ?_⟩
  · exact response_roundtrip.1 2 0 0 [161, 2, 24, 0, 0] (by omega) (by omega)
      (by have h := encode_pingResponse 2 0 0; simpa using h)
  · exact response_roundtrip.2.1 2 0 0 [161, 2, 16, 0, 0] (by omega) (by omega)
      (by have h := encode_containsKeyResponse 2 0 0; simpa using h)
  · exact response_roundtrip.2.2.1 2 0 [7] [161, 2, 4, 0, 0, 1, 7] (by omega)
      (by have h := encode_getResponse 2 0 [7]; simpa using h)
  · exact response_roundtrip.2.2.2.1 2 0 [7] [161, 2, 2, 3, 0, 1, 7] (by omega)
      (by have h := encode_putResponse 2 0 [7]; simpa using h)
  · exact response_roundtrip.2.2.2.2.1 2 0 [7] [161, 2, 12, 3, 0, 1, 7] (by omega)
      (by have h := encode_removeResponse 2 0 [7]; simpa using h)
  · exact response_roundtrip.2.2.2.2.2 2 0 0 [7] [161, 2, 80, 0, 0, 1, 7] (by omega)
      (by omega)
      (by have h := encode_errorResponse 2 0 0 [7]; simpa using h)

theorem encodeLoop_error_iff (msg rest : Fields) :
    (∃ e, encodeLoop msg rest = .error e) ↔ hasMissingRequired msg rest = true := by
  induction msg, rest using encodeLoop.induct with
  | case1 msg =>
    rw [encodeLoop.eq_def, hasMissingRequired.eq_def]
    simp
  | case2 msg spec v rest hcond ih =>
    rw [encodeLoop.eq_def, hasMissingRequired.eq_def]
    simp [hcond, ih]
  | case3 msg spec v rest hcond hnone =>
    simp only [Bool.not_eq_false] at hcond
    rw [encodeLoop.eq_def, hasMissingRequired.eq_def]
    simp [hcond, hnone]
  | case4 msg spec rest hcond sub htype bs2 bs1 hrest hsub hnone ih1 ih2 =>
    simp only [Bool.not_eq_false] at hcond
    rw [encodeLoop.eq_def, hasMissingRequired.eq_def]
    simp [hcond, htype, hsub, hrest, FVal.isNone, ← ih1, ← ih2]
  | case5 msg spec rest hcond sub htype e hsub hnone ih1 ih2 =>
    simp only [Bool.not_eq_false] at hcond
    rw [encodeLoop.eq_def, hasMissingRequired.eq_def]
    simp [hcond, htype, hsub, FVal.isNone, ← ih1]
  | case6 msg spec rest hcond sub htype a e hrest hsub hnone ih1 ih2 =>
    simp only [Bool.not_eq_false] at hcond
    rw [encodeLoop.eq_def, hasMissingRequired.eq_def]
    simp [hcond, htype, hsub, hrest, FVal.isNone, ← ih1, ← ih2]
  | case7 msg spec rest hcond w bs hrest hnone hnc ih =>
    simp only [Bool.not_eq_false] at hcond
    rw [encodeLoop.eq_def, hasMissingRequired.eq_def]
    obtain ⟨nm, ty, opt, cnd⟩ := spec
    cases ty <;> cases w <;>
      first
      | exact absurd rfl (fun h => hnc _ rfl (by exact h ▸ rfl))
      | simp_all [FVal.isNone]
  | case8 msg spec rest hcond w e hrest hnone hnc ih =>
    simp only [Bool.not_eq_false] at hcond
    rw [encodeLoop.eq_def, hasMissingRequired.eq_def]
    obtain ⟨nm, ty, opt, cnd⟩ := spec
    cases ty <;> cases w <;>
      first
      | exact absurd rfl (fun h => hnc _ rfl (by exact h ▸ rfl))
      | simp_all [FVal.isNone]

/-- Claim C4: encoding raises `EncodeError` iff some field (possibly nested
in a composite) is unset (`None`) while not optional and with its
condition (absent condition counts as true) holding; and when encoding
the request inside `Protocol.send` raises, nothing is written to the
connection. -/
theorem encode_error_iff_required_missing :
    (∀ msg : Fields,
        (∃ e, Protocol.encode msg = .error e) ↔ hasMissingRequired msg msg = true) ∧
    (∀ (st : ProtState) (frames : List (List Nat)) (request : Fields) (f : String),
        Protocol.encode (setHeaderId request (st.nextId + 1)) = .error (.required f) →
        Protocol.send st frames request = (.error (.enc f), [])) := by
  constructor
  · intro msg
    exact encodeLoop_error_iff msg msg
  · intro st frames request f h
    rw [Protocol.send.eq_def]
    simp [h]

theorem encode_error_iff_required_missing_witness :
    hasMissingRequired (getRequest 1 .fnone) (getRequest 1 .fnone) = true ∧
    (∃ e, Protocol.encode (getRequest 1 .fnone) = .error e) ∧
    Protocol.send ⟨4, []⟩ [] (getRequest 0 .fnone) = (.error (.enc "key"), []) := by
  have h1 : hasMissingRequired (getRequest 1 .fnone) (getRequest 1 .fnone) = true := by
    simp [hasMissingRequired, getRequest, requestHeader, requestHeaderWith, headerField,
      condHolds, FVal.isNone]
  refine ⟨h1, (encode_error_iff_required_missing.1 _).mpr h1, ?_⟩
  refine encode_error_iff_required_missing.2 ⟨4, []⟩ [] (getRequest 0 .fnone) "key" ?_
  simp [Protocol.encode, setHeaderId, setFieldVal, getRequest, requestHeader,
    requestHeaderWith, headerField, encodeLoop, condHolds, encodeTok, encodeNone,
    FVal.isNone]

theorem dictGet_dictReplace (t : List (Nat × Fields)) (k : Nat) (v : Fields)
    (h : (dictGet t k).isSome) : dictGet (dictReplace t k v) k = some v := by
  induction t with
  | nil => simp [dictGet] at h
  | cons p t ih =>
    obtain ⟨a, b⟩ := p
    by_cases hp : a = k
    · subst hp
      simp [dictReplace, dictGet]
    · rw [dictGet] at h
      simp only [hp, if_false] at h
      simp [dictReplace, dictGet, hp, ih h]

theorem dictGet_dictReplace_ne (t : List (Nat × Fields)) (k q : Nat) (v : Fields)
    (h : q ≠ k) : dictGet (dictReplace t k v) q = dictGet t q := by
  induction t with
  | nil => simp [dictReplace]
  | cons p t ih =>
    obtain ⟨a, b⟩ := p
    by_cases hp : a = k
    · subst hp
      simp [dictReplace, dictGet, Ne.symm h, ih]
    · simp [dictReplace, dictGet, hp, ih]

theorem dictGet_append_single (t : List (Nat × Fields)) (k : Nat) (v : Fields)
    (h : dictGet t k = none) : dictGet (t ++ [(k, v)]) k = some v := by
  induction t with
  | nil => simp [dictGet]
  | cons p t ih =>
    obtain ⟨a, b⟩ := p
    by_cases hp : a = k
    · rw [dictGet] at h
      simp [hp] at h
    · rw [dictGet] at h
      simp only [hp, if_false] at h
      simp [dictGet, hp, ih h]

theorem dictGet_append_single_ne (t : List (Nat × Fields)) (k q : Nat) (v : Fields)
    (h : q ≠ k) : dictGet (t ++ [(k, v)]) q = dictGet t q := by
  induction t with
  | nil => simp [dictGet, Ne.symm h]
  | cons p t ih =>
    obtain ⟨a, b⟩ := p
    simp [dictGet, ih]

theorem dictGet_dictSet_self (rs : List (Nat × Fields)) (k : Nat) (v : Fields) :
    dictGet (dictSet rs k v) k = some v := by
  unfold dictSet
  split
  · rename_i h
    exact dictGet_dictReplace rs k v h
  · rename_i h
    refine dictGet_append_single rs k v ?_
    cases hg : dictGet rs k with
    | none => rfl
    | some w => rw [hg] at h; simp at h

theorem dictGet_dictSet_ne (rs : List (Nat × Fields)) (k q : Nat) (v : Fields)
    (h : q ≠ k) : dictGet (dictSet rs k v) q = dictGet rs q := by
  unfold dictSet
  split
  · exact dictGet_dictReplace_ne rs k q v h
  · exact dictGet_append_single_ne rs k q v h

theorem recvLoop_preserves_other (reqId : Nat) (rs : List (Nat × Fields))
    (frames : List (List Nat)) (rs' : List (Nat × Fields)) (frames' : List (List Nat))
    (h : recvLoop reqId rs frames = .ok (rs', frames')) :
    ∀ k, k ≠ reqId → dictGet rs' k = dictGet rs k := by
  induction rs, frames using recvLoop.induct reqId with
  | case1 rs frames hs =>
    rw [recvLoop.eq_def] at h
    simp only [hs, if_true, Except.ok.injEq, Prod.mk.injEq] at h
    intro k hk
    rw [← h.1]
  | case2 rs hs =>
    rw [recvLoop.eq_def] at h
    simp [hs] at h
  | case3 rs hs f fs e hdec =>
    rw [recvLoop.eq_def] at h
    simp [hs, hdec] at h
  | case4 rs hs f fs resp hdec ih =>
    rw [recvLoop.eq_def] at h
    simp only [hs, Bool.false_eq_true, if_false, hdec] at h
    intro k hk
    rw [ih h k hk, dictGet_dictSet_ne rs reqId k resp hk]

theorem setHeaderId_pingRequest (m n : Nat) :
    setHeaderId (pingRequest m) n = pingRequest n := by
  simp [setHeaderId, setFieldVal, pingRequest, requestHeader, requestHeaderWith,
    headerField]

theorem send_run (st : ProtState) (f : List Nat) (request req2 : Fields)
    (bs : List Nat) (resp : Fields)
    (hset : setHeaderId request (st.nextId + 1) = req2)
    (henc : Protocol.encode req2 = .ok bs)
    (hnone : dictGet st.resps (st.nextId + 1) = none)
    (hdec : Protocol.decode f = .ok resp) :
    (Protocol.send st [f] request).1 =
      .ok (resp, ⟨st.nextId + 1, dictSet st.resps (st.nextId + 1) resp⟩, []) := by
  rw [Protocol.send.eq_def, hset, henc]
  simp only [recvLoop.eq_def, hnone, hdec, Option.isSome_none, Bool.false_eq_true,
    if_false, dictGet_dictSet_self, Option.isSome_some, if_true, except_bind_ok]

theorem send_run_decode_error (st : ProtState) (f : List Nat) (request req2 : Fields)
    (bs : List Nat) (e : DecErr)
    (hset : setHeaderId request (st.nextId + 1) = req2)
    (henc : Protocol.encode req2 = .ok bs)
    (hnone : dictGet st.resps (st.nextId + 1) = none)
    (hdec : Protocol.decode f = .error e) :
    (Protocol.send st [f] request).1 = .error (.dec e) := by
  rw [Protocol.send.eq_def, hset, henc]
  simp only [recvLoop.eq_def, hnone, hdec, Option.isSome_none, Bool.false_eq_true,
    if_false, except_bind_error]

/-- Claim C1 (code bug): `Protocol.send` stores a received frame in `_resps`
under the polling caller's `req_id`, not under the id decoded from the
frame.  A caller with request id 1 that reads a frame carrying id 2
stores that frame under key 1 and returns it as its own response; no
entry for key 2 is ever created. -/
theorem send_stores_frame_under_caller_id :
    (Protocol.send ⟨0, []⟩ [[161, 2, 24, 0, 0]] (pingRequest 0)).1 =
      .ok (pingResponse (responseHeader 2 0x18 0 0),
        ⟨1, [(1, pingResponse (responseHeader 2 0x18 0 0))]⟩, []) ∧
    headerId (pingResponse (responseHeader 2 0x18 0 0)) = some 2 ∧
    dictGet [(1, pingResponse (responseHeader 2 0x18 0 0))] 2 = none := by
  refine ⟨?_, ?_, ?_⟩
  · have h := send_run ⟨0, []⟩ [161, 2, 24, 0, 0] (pingRequest 0) (pingRequest 1)
      [160, 1, 25, 23, 0, 0, 1, 0] (pingResponse (responseHeader 2 0x18 0 0))
      (setHeaderId_pingRequest 0 1)
      (by have h := encode_pingRequest 1; simpa using h)
      rfl
      (by have h := decode_pingResponse 2 0 0 []; simpa using h)
    simpa [dictSet, dictGet] using h
  · simp [headerId, pingResponse, responseHeader, responseHeaderWith, headerField,
      lookupField]
  · simp [dictGet]

/-- Counterexample to claim C2 as stated: after `Protocol.send` returns, the
entry for the caller's request id is still in `_resps` — line 181 of
hotrod.py returns `self._resps[req_id]` without removing the binding. -/
theorem send_keeps_delivered_entry :
    (Protocol.send ⟨0, []⟩ [[161, 1, 24, 0, 0]] (pingRequest 0)).1 =
      .ok (pingResponse (responseHeader 1 0x18 0 0),
        ⟨1, [(1, pingResponse (responseHeader 1 0x18 0 0))]⟩, []) ∧
    dictGet [(1, pingResponse (responseHeader 1 0x18 0 0))] 1 ≠ none := by
  constructor
  · have h := send_run ⟨0, []⟩ [161, 1, 24, 0, 0] (pingRequest 0) (pingRequest 1)
      [160, 1, 25, 23, 0, 0, 1, 0] (pingResponse (responseHeader 1 0x18 0 0))
      (setHeaderId_pingRequest 0 1)
      (by have h := encode_pingRequest 1; simpa using h)
      rfl
      (by have h := decode_pingResponse 1 0 0 []; simpa using h)
    simpa [dictSet, dictGet] using h
  · simp [dictGet]

/-- Claim C2 (amended): when `Protocol.send` returns a response, the entry
for the caller's request id remains in the shared results table (it is
not removed), while entries stored under other ids are left unchanged. -/
theorem send_retains_entry_and_preserves_others :
    ∀ (st : ProtState) (frames : List (List Nat)) (request resp : Fields)
      (st' : ProtState) (fr : List (List Nat)),
      (Protocol.send st frames request).1 = .ok (resp, st', fr) →
      dictGet st'.resps (st.nextId + 1) = some resp ∧
      ∀ k, k ≠ st.nextId + 1 → dictGet st'.resps k = dictGet st.resps k := by
  intro st frames request resp st' fr h
  rw [Protocol.send.eq_def] at h
  cases henc : Protocol.encode (setHeaderId request (st.nextId + 1)) with
  | error e =>
    cases e with
    | required f =>
      rw [henc] at h
      simp at h
  | ok bs =>
    rw [henc] at h
    cases hr : recvLoop (st.nextId + 1) st.resps frames with
    | error e =>
      rw [hr] at h
      simp at h
    | ok p =>
      obtain ⟨rs2, fr2⟩ := p
      rw [hr] at h
      simp only [except_bind_ok] at h
      cases hg : dictGet rs2 (st.nextId + 1) with
      | none =>
        rw [hg] at h
        simp at h
      | some r =>
        rw [hg] at h
        simp only [Except.ok.injEq, Prod.mk.injEq] at h
        obtain ⟨h1, h2, h3⟩ := h
        subst h1
        constructor
        · rw [← h2]
          exact hg
        · intro k hk
          rw [← h2]
          exact recvLoop_preserves_other (st.nextId + 1) st.resps frames rs2 fr2 hr k hk

theorem send_retains_entry_and_preserves_others_witness :
    dictGet
        (⟨1, [(1, pingResponse (responseHeader 1 0x18 0 0))]⟩ : ProtState).resps 1 =
      some (pingResponse (responseHeader 1 0x18 0 0)) ∧
    ∀ k, k ≠ 1 →
      dictGet
          (⟨1, [(1, pingResponse (responseHeader 1 0x18 0 0))]⟩ : ProtState).resps k =
        dictGet ((⟨0, []⟩ : ProtState)).resps k := by
  refine send_retains_entry_and_preserves_others ⟨0, []⟩ [[161, 1, 24, 0, 0]]
    (pingRequest 0) (pingResponse (responseHeader 1 0x18 0 0))
    ⟨1, [(1, pingResponse (responseHeader 1 0x18 0 0))]⟩ [] ?_
  have h := send_run ⟨0, []⟩ [161, 1, 24, 0, 0] (pingRequest 0) (pingRequest 1)
    [160, 1, 25, 23, 0, 0, 1, 0] (pingResponse (responseHeader 1 0x18 0 0))
    (setHeaderId_pingRequest 0 1)
    (by have h := encode_pingRequest 1; simpa using h)
    rfl
    (by have h := decode_pingResponse 1 0 0 []; simpa using h)
  simpa [dictSet, dictGet] using h

/-- Claim C9: a response frame carrying the reserved error opcode 0x50 does
not make `Protocol.send` raise: the decoded `ErrorResponse`, message
included, is returned to the blocked caller like any other response; a
decode exception occurs only for opcodes with no registered shape. -/
theorem send_returns_error_response :
    (∀ (st : ProtState) (stc tcm : Nat) (s : List Nat),
        dictGet st.resps (st.nextId + 1) = none →
        (Protocol.send st
            [161 :: uvarint (st.nextId + 1) ++ 80 :: stc :: tcm ::
              (uvarint s.length ++ s)]
            (pingRequest 0)).1 =
          .ok (errorResponse (responseHeader (st.nextId + 1) 0x50 stc tcm)
              (.vString s),
            ⟨st.nextId + 1,
              dictSet st.resps (st.nextId + 1)
                (errorResponse (responseHeader (st.nextId + 1) 0x50 stc tcm)
                  (.vString s))⟩, [])) ∧
    (∀ (st : ProtState) (op stc tcm : Nat) (rest : List Nat),
        dictGet st.resps (st.nextId + 1) = none →
        op ≠ 0x02 → op ≠ 0x04 → op ≠ 0x0C → op ≠ 0x10 → op ≠ 0x18 → op ≠ 0x50 →
        (Protocol.send st
            [161 :: uvarint (st.nextId + 1) ++ op :: stc :: tcm :: rest]
            (pingRequest 0)).1 =
          .error (.dec (.unsupported op))) := by
  constructor
  · intro st stc tcm s hnone
    refine send_run st _ (pingRequest 0) (pingRequest (st.nextId + 1)) _ _
      (setHeaderId_pingRequest 0 (st.nextId + 1))
      (encode_pingRequest (st.nextId + 1)) hnone ?_
    have h := decode_errorResponse (st.nextId + 1) stc tcm s []
    rwa [List.append_nil] at h
  · intro st op stc tcm rest hnone h2 h4 h12 h16 h24 h80
    exact send_run_decode_error st _ (pingRequest 0) (pingRequest (st.nextId + 1))
      _ _ (setHeaderId_pingRequest 0 (st.nextId + 1))
      (encode_pingRequest (st.nextId + 1)) hnone
      (decode_unregistered (st.nextId + 1) op stc tcm rest h2 h4 h12 h16 h24 h80)

theorem send_returns_error_response_witness :
    (Protocol.send ⟨0, []⟩ [[161, 1, 80, 133, 0, 1, 65]] (pingRequest 0)).1 =
      .ok (errorResponse (responseHeader 1 0x50 133 0) (.vString [65]),
        ⟨1, [(1, errorResponse (responseHeader 1 0x50 133 0) (.vString [65]))]⟩,
        []) ∧
    (Protocol.send ⟨0, []⟩ [[161, 1, 153, 0, 0]] (pingRequest 0)).1 =
      .error (.dec (.unsupported 153)) := by
  constructor
  · have h := send_returns_error_response.1 ⟨0, []⟩ 133 0 [65] rfl
    simpa [dictSet, dictGet] using h
  · have h := send_returns_error_response.2 ⟨0, []⟩ 153 0 0 [] rfl
      (by omega) (by omega) (by omega) (by omega) (by omega) (by omega)
    simpa using h

/-- Predicate: the stream is bound to connection `j` and in the reading
phase. -/
def readPred (j : Nat) (s : PoolStream) : Bool :=
  s.connIdx == j && s.isReading

/-- Predicate: the stream is bound to connection `j` and not yet completed
or cancelled. -/
def unfPred (j : Nat) (s : PoolStream) : Bool :=
  s.connIdx == j && s.unfinished

/-- Streams bound to connection `j` that are in the reading phase. -/
def readingOn (j : Nat) (l : List PoolStream) : Nat :=
  l.countP (readPred j)

/-- Streams bound to connection `j` that are not yet completed or
cancelled. -/
def unfinishedOn (j : Nat) (l : List PoolStream) : Nat :=
  l.countP (unfPred j)

/-- Invariant tying the busy flags to the streams: flags index the pool,
stream bindings are in range, a flag is set exactly when one reading
stream is bound to its connection, at most one unfinished stream is
bound to any connection, and the number of set flags equals the number
of reading streams. -/
def PoolInv (st : PoolSt) : Prop :=
  st.busy.length = st.size ∧
  (∀ s ∈ st.streams, s.connIdx < st.size) ∧
  (∀ j, (st.busy.getD j false = true ↔ readingOn j st.streams = 1)) ∧
  (∀ j, unfinishedOn j st.streams ≤ 1) ∧
  st.busy.countP (fun b => b) = st.streams.countP PoolStream.isReading

theorem isReading_eq_true {a : PoolStream} (h : a.phase = .reading) :
    a.isReading = true := by
  simp [PoolStream.isReading, h]

theorem isReading_eq_false {a : PoolStream} (h : a.phase ≠ .reading) :
    a.isReading = false := by
  simp [PoolStream.isReading, h]

theorem unfinished_eq_true {a : PoolStream}
    (h : a.phase = .idle ∨ a.phase = .reading) : a.unfinished = true := by
  rcases h with h | h <;> simp [PoolStream.unfinished, h]

theorem unfinished_eq_false {a : PoolStream} (h1 : a.phase ≠ .idle)
    (h2 : a.phase ≠ .reading) : a.unfinished = false := by
  simp [PoolStream.unfinished, h1, h2]

theorem readPred_eq_true {j : Nat} {a : PoolStream} (h1 : a.connIdx = j)
    (h2 : a.phase = .reading) : readPred j a = true := by
  simp [readPred, h1, isReading_eq_true h2]

theorem readPred_eq_false_conn {j : Nat} {a : PoolStream} (h : a.connIdx ≠ j) :
    readPred j a = false := by
  simp [readPred, h]

theorem readPred_eq_false_phase {j : Nat} {a : PoolStream}
    (h : a.phase ≠ .reading) : readPred j a = false := by
  simp [readPred, isReading_eq_false h]

theorem unfPred_eq_true {j : Nat} {a : PoolStream} (h1 : a.connIdx = j)
    (h2 : a.phase = .idle ∨ a.phase = .reading) : unfPred j a = true := by
  simp [unfPred, h1, unfinished_eq_true h2]

theorem unfPred_eq_false_conn {j : Nat} {a : PoolStream} (h : a.connIdx ≠ j) :
    unfPred j a = false := by
  simp [unfPred, h]

theorem unfPred_eq_false_phase {j : Nat} {a : PoolStream} (h1 : a.phase ≠ .idle)
    (h2 : a.phase ≠ .reading) : unfPred j a = false := by
  simp [unfPred, unfinished_eq_false h1 h2]

theorem readPred_imp_unfPred (j : Nat) (a : PoolStream) (h : readPred j a = true) :
    unfPred j a = true := by
  simp only [readPred, Bool.and_eq_true] at h
  refine unfPred_eq_true (by simpa using h.1) (Or.inr ?_)
  have := h.2
  simp [PoolStream.isReading] at this
  exact this

theorem if_bool_true {b : Bool} (h : b = true) :
    (if b = true then 1 else 0) = 1 := by simp [h]

theorem if_bool_false {b : Bool} (h : b = false) :
    (if b = true then 1 else 0) = 0 := by simp [h]

theorem countP_bool_split (l : List Bool) :
    l.countP (fun b => !b) + l.countP (fun b => b) = l.length := by
  induction l with
  | nil => simp
  | cons a t ih =>
    cases a <;> simp [List.countP_cons] <;> omega

theorem countP_set_eval {α : Type _} (p : α → Bool) (l : List α) (i : Nat) (a : α)
    (h : i < l.length) :
    (l.set i a).countP p + (if p l[i] then 1 else 0) =
      l.countP p + (if p a then 1 else 0) := by
  rw [List.countP_set p l i a h]
  have hle : (if p l[i] = true then 1 else 0) ≤ l.countP p := by
    split
    · rename_i hp
      have : 0 < l.countP p := List.countP_pos_iff.mpr ⟨l[i], List.getElem_mem h, hp⟩
      omega
    · omega
  omega

theorem countP_lt_of_mem_distinct {α : Type _} (l : List α) (p q : α → Bool) (k : Nat)
    (hk : k < l.length) (himp : ∀ a, q a = true → p a = true)
    (hpk : p l[k] = true) (hqk : q l[k] = false) :
    l.countP q < l.countP p := by
  induction l generalizing k with
  | nil => simp at hk
  | cons a t ih =>
    cases k with
    | zero =>
      simp only [List.getElem_cons_zero] at hpk hqk
      have hmono : t.countP q ≤ t.countP p :=
        List.countP_mono_left (fun x _ hx => himp x hx)
      simp [List.countP_cons, hpk, hqk]
      omega
    | succ k =>
      have hk2 : k < t.length := by simpa using hk
      have hstep := ih k hk2 (by simpa using hpk) (by simpa using hqk)
      rw [List.countP_cons, List.countP_cons]
      by_cases hqa : q a = true
      · have hpa := himp a hqa
        simp [hqa, hpa]
        omega
      · simp [hqa]
        split <;> omega

theorem getD_set_self (l : List Bool) (i : Nat) (a : Bool) (h : i < l.length) :
    (l.set i a).getD i false = a := by
  rw [List.getD_eq_getElem _ _ (by simpa using h), List.getElem_set]
  simp

theorem getD_set_ne (l : List Bool) (i j : Nat) (a : Bool) (h : i ≠ j) :
    (l.set i a).getD j false = l.getD j false := by
  by_cases hj : j < l.length
  · rw [List.getD_eq_getElem _ _ (by simpa using hj), List.getD_eq_getElem _ _ hj,
      List.getElem_set, if_neg h]
  · have h1 : l.length ≤ j := by omega
    rw [List.getD_eq_default _ _ (by simpa using h1), List.getD_eq_default _ _ h1]

theorem poolInv_acquire (st : PoolSt) (k : Nat) (s : PoolStream)
    (hinv : PoolInv st) (hget : st.streams.get? k = some s)
    (hidle : s.phase = .idle) :
    PoolInv { st with busy := st.busy.set s.connIdx true,
                      streams := st.streams.set k ⟨s.connIdx, .reading⟩ } := by
  obtain ⟨h1, h2, h3, h4, h5⟩ := hinv
  obtain ⟨hk, hgetk0⟩ := List.get?_eq_some.mp hget
  rw [List.get_eq_getElem] at hgetk0
  have hgetk : st.streams[k] = s := by simpa using hgetk0
  have hmem : s ∈ st.streams := hgetk ▸ List.getElem_mem hk
  have hjsize : s.connIdx < st.size := h2 s hmem
  have hjb : s.connIdx < st.busy.length := by omega
  have hphase : s.phase ≠ .reading := by
    rw [hidle]
    intro hc
    cases hc
  have hcr := countP_set_eval (readPred s.connIdx) st.streams k
    ⟨s.connIdx, .reading⟩ hk
  rw [hgetk, if_bool_false (readPred_eq_false_phase hphase),
    if_bool_true (@readPred_eq_true s.connIdx ⟨s.connIdx, .reading⟩ rfl rfl)] at hcr
  have hlt := countP_lt_of_mem_distinct st.streams (unfPred s.connIdx)
    (readPred s.connIdx) k hk (readPred_imp_unfPred s.connIdx)
    (by rw [hgetk]; exact unfPred_eq_true rfl (Or.inl hidle))
    (by rw [hgetk]; exact readPred_eq_false_phase hphase)
  have hzero : readingOn s.connIdx st.streams = 0 := by
    have h4j := h4 s.connIdx
    unfold unfinishedOn at h4j
    unfold readingOn
    omega
  have hbusyj : st.busy.getD s.connIdx false = false := by
    cases hb : st.busy.getD s.connIdx false with
    | false => rfl
    | true =>
      have h31 := (h3 s.connIdx).mp hb
      rw [hzero] at h31
      omega
  have hbusyjElem : st.busy[s.connIdx] = false := by
    rw [← List.getD_eq_getElem st.busy false hjb]
    exact hbusyj
  refine ⟨by simpa using h1, ?_, ?_, ?_, ?_⟩
  · intro s2 hs2
    rcases List.mem_or_eq_of_mem_set hs2 with h | h
    · exact h2 s2 h
    · rw [h]
      exact hjsize
  · intro j
    by_cases hj : j = s.connIdx
    · subst hj
      rw [getD_set_self _ _ _ hjb]
      have hone : readingOn s.connIdx (st.streams.set k ⟨s.connIdx, .reading⟩) = 1 := by
        unfold readingOn at hzero ⊢
        omega
      exact ⟨fun _ => hone, fun _ => rfl⟩
    · rw [getD_set_ne _ _ _ _ (Ne.symm hj)]
      have hcr2 := countP_set_eval (readPred j) st.streams k ⟨s.connIdx, .reading⟩ hk
      rw [hgetk, if_bool_false (readPred_eq_false_conn (Ne.symm hj))] at hcr2
      rw [if_bool_false (@readPred_eq_false_conn j ⟨s.connIdx, .reading⟩
        (Ne.symm hj))] at hcr2
      have heq : readingOn j (st.streams.set k ⟨s.connIdx, .reading⟩) =
          readingOn j st.streams := by
        unfold readingOn
        omega
      rw [heq]
      exact h3 j
  · intro j
    have hcu := countP_set_eval (unfPred j) st.streams k ⟨s.connIdx, .reading⟩ hk
    have h4j := h4 j
    by_cases hj : j = s.connIdx
    · subst hj
      rw [hgetk, if_bool_true (unfPred_eq_true rfl (Or.inl hidle)),
        if_bool_true (@unfPred_eq_true s.connIdx ⟨s.connIdx, .reading⟩ rfl
          (Or.inr rfl))] at hcu
      unfold unfinishedOn at h4j ⊢
      dsimp only
      omega
    · rw [hgetk, if_bool_false (unfPred_eq_false_conn (Ne.symm hj))] at hcu
      rw [if_bool_false (@unfPred_eq_false_conn j ⟨s.connIdx, .reading⟩
        (Ne.symm hj))] at hcu
      unfold unfinishedOn at h4j ⊢
      dsimp only
      omega
  · have hb := countP_set_eval (fun b => b) st.busy s.connIdx true hjb
    simp only [] at hb
    rw [hbusyjElem] at hb
    simp at hb
    have hsR := countP_set_eval PoolStream.isReading st.streams k
      ⟨s.connIdx, .reading⟩ hk
    rw [hgetk, if_bool_false (isReading_eq_false hphase),
      if_bool_true (@isReading_eq_true ⟨s.connIdx, .reading⟩ rfl)] at hsR
    simp only []
    omega

theorem poolInv_release (st : PoolSt) (k : Nat) (s : PoolStream) (ph : StreamPhase)
    (hinv : PoolInv st) (hget : st.streams.get? k = some s)
    (hread : s.phase = .reading)
    (hph : ph = StreamPhase.finished ∨ ph = StreamPhase.cancelled) :
    PoolInv { st with busy := st.busy.set s.connIdx false,
                      streams := st.streams.set k ⟨s.connIdx, ph⟩ } := by
  obtain ⟨h1, h2, h3, h4, h5⟩ := hinv
  obtain ⟨hk, hgetk0⟩ := List.get?_eq_some.mp hget
  rw [List.get_eq_getElem] at hgetk0
  have hgetk : st.streams[k] = s := by simpa using hgetk0
  have hmem : s ∈ st.streams := hgetk ▸ List.getElem_mem hk
  have hjsize : s.connIdx < st.size := h2 s hmem
  have hjb : s.connIdx < st.busy.length := by omega
  have hphne : ph ≠ StreamPhase.reading := by
    rcases hph with h | h <;> subst h <;> intro hc <;> cases hc
  have hphni : ph ≠ StreamPhase.idle := by
    rcases hph with h | h <;> subst h <;> intro hc <;> cases hc
  have hmono : st.streams.countP (readPred s.connIdx) ≤
      st.streams.countP (unfPred s.connIdx) :=
    List.countP_mono_left (fun x _ hx => readPred_imp_unfPred s.connIdx x hx)
  have hpos : 0 < st.streams.countP (readPred s.connIdx) :=
    List.countP_pos_iff.mpr ⟨s, hmem, readPred_eq_true rfl hread⟩
  have hone : readingOn s.connIdx st.streams = 1 := by
    have h4j := h4 s.connIdx
    unfold unfinishedOn at h4j
    unfold readingOn
    omega
  have hbusyj : st.busy.getD s.connIdx false = true := (h3 s.connIdx).mpr hone
  have hbusyjElem : st.busy[s.connIdx] = true := by
    rw [← List.getD_eq_getElem st.busy false hjb]
    exact hbusyj
  have hcr := countP_set_eval (readPred s.connIdx) st.streams k ⟨s.connIdx, ph⟩ hk
  rw [hgetk, if_bool_true (readPred_eq_true rfl hread),
    if_bool_false (@readPred_eq_false_phase s.connIdx ⟨s.connIdx, ph⟩ hphne)] at hcr
  refine ⟨by simpa using h1, ?_, ?_, ?_, ?_⟩
  · intro s2 hs2
    rcases List.mem_or_eq_of_mem_set hs2 with h | h
    · exact h2 s2 h
    · rw [h]
      exact hjsize
  · intro j
    by_cases hj : j = s.connIdx
    · subst hj
      have h0 : readingOn s.connIdx (st.streams.set k ⟨s.connIdx, ph⟩) = 0 := by
        unfold readingOn at hone ⊢
        omega
      rw [getD_set_self _ _ _ hjb, h0]
      simp
    · rw [getD_set_ne _ _ _ _ (Ne.symm hj)]
      have hcr2 := countP_set_eval (readPred j) st.streams k ⟨s.connIdx, ph⟩ hk
      rw [hgetk, if_bool_false (readPred_eq_false_conn (Ne.symm hj))] at hcr2
      rw [if_bool_false (@readPred_eq_false_conn j ⟨s.connIdx, ph⟩
        (Ne.symm hj))] at hcr2
      have heq : readingOn j (st.streams.set k ⟨s.connIdx, ph⟩) =
          readingOn j st.streams := by
        unfold readingOn
        omega
      rw [heq]
      exact h3 j
  · intro j
    have hcu := countP_set_eval (unfPred j) st.streams k ⟨s.connIdx, ph⟩ hk
    have h4j := h4 j
    by_cases hj : j = s.connIdx
    · subst hj
      rw [hgetk, if_bool_true (unfPred_eq_true rfl (Or.inr hread)),
        if_bool_false (@unfPred_eq_false_phase s.connIdx ⟨s.connIdx, ph⟩ hphni
          hphne)] at hcu
      unfold unfinishedOn at h4j ⊢
      dsimp only
      omega
    · rw [hgetk, if_bool_false (unfPred_eq_false_conn (Ne.symm hj))] at hcu
      rw [if_bool_false (@unfPred_eq_false_conn j ⟨s.connIdx, ph⟩
        (Ne.symm hj))] at hcu
      unfold unfinishedOn at h4j ⊢
      dsimp only
      omega
  · have hb := countP_set_eval (fun b => b) st.busy s.connIdx false hjb
    simp only [] at hb
    rw [hbusyjElem] at hb
    simp at hb
    have hsR := countP_set_eval PoolStream.isReading st.streams k ⟨s.connIdx, ph⟩ hk
    rw [hgetk, if_bool_true (isReading_eq_true hread),
      if_bool_false (@isReading_eq_false ⟨s.connIdx, ph⟩ hphne)] at hsR
    simp only []
    omega

theorem poolInv_cancel_idle (st : PoolSt) (k : Nat) (s : PoolStream)
    (hinv : PoolInv st) (hget : st.streams.get? k = some s)
    (hidle : s.phase = .idle) :
    PoolInv { st with streams := st.streams.set k ⟨s.connIdx, .cancelled⟩ } := by
  obtain ⟨h1, h2, h3, h4, h5⟩ := hinv
  obtain ⟨hk, hgetk0⟩ := List.get?_eq_some.mp hget
  rw [List.get_eq_getElem] at hgetk0
  have hgetk : st.streams[k] = s := by simpa using hgetk0
  have hmem : s ∈ st.streams := hgetk ▸ List.getElem_mem hk
  have hjsize : s.connIdx < st.size := h2 s hmem
  have hphase : s.phase ≠ .reading := by
    rw [hidle]
    intro hc
    cases hc
  refine ⟨h1, ?_, ?_, ?_, ?_⟩
  · intro s2 hs2
    rcases List.mem_or_eq_of_mem_set hs2 with h | h
    · exact h2 s2 h
    · rw [h]
      exact hjsize
  · intro j
    have hcr2 := countP_set_eval (readPred j) st.streams k ⟨s.connIdx, .cancelled⟩ hk
    rw [hgetk, if_bool_false (readPred_eq_false_phase hphase)] at hcr2
    rw [if_bool_false (@readPred_eq_false_phase j ⟨s.connIdx, .cancelled⟩
      (by intro hc; cases hc))] at hcr2
    have heq : readingOn j (st.streams.set k ⟨s.connIdx, .cancelled⟩) =
        readingOn j st.streams := by
      unfold readingOn
      omega
    rw [heq]
    exact h3 j
  · intro j
    have hcu := countP_set_eval (unfPred j) st.streams k ⟨s.connIdx, .cancelled⟩ hk
    have h4j := h4 j
    rw [hgetk, if_bool_false (@unfPred_eq_false_phase j ⟨s.connIdx, .cancelled⟩
      (by intro hc; cases hc) (by intro hc; cases hc))] at hcu
    unfold unfinishedOn at h4j ⊢
    dsimp only
    by_cases hj : j = s.connIdx
    · subst hj
      rw [if_bool_true (unfPred_eq_true rfl (Or.inl hidle))] at hcu
      omega
    · rw [if_bool_false (unfPred_eq_false_conn (Ne.symm hj))] at hcu
      omega
  · have hsR := countP_set_eval PoolStream.isReading st.streams k
      ⟨s.connIdx, .cancelled⟩ hk
    rw [hgetk, if_bool_false (isReading_eq_false hphase),
      if_bool_false (@isReading_eq_false ⟨s.connIdx, .cancelled⟩
        (by intro hc; cases hc))] at hsR
    simp only []
    omega

theorem poolInv_recv (st : PoolSt) (i : Nat) (hinv : PoolInv st) (hi : i < st.size)
    (hall : st.streams.all (fun s => !(s.connIdx == i && s.unfinished)) = true) :
    PoolInv { st with streams := st.streams ++ [⟨i, .idle⟩] } := by
  obtain ⟨h1, h2, h3, h4, h5⟩ := hinv
  have hzero : unfinishedOn i st.streams = 0 := by
    unfold unfinishedOn
    refine List.countP_eq_zero.mpr ?_
    intro a ha
    have := List.all_eq_true.mp hall a ha
    simp only [Bool.not_eq_eq_eq_not, Bool.not_true] at this
    unfold unfPred
    simp [this]
  refine ⟨h1, ?_, ?_, ?_, ?_⟩
  · intro s2 hs2
    rcases List.mem_append.mp hs2 with h | h
    · exact h2 s2 h
    · rw [List.mem_singleton.mp h]
      exact hi
  · intro j
    have heq : readingOn j (st.streams ++ [⟨i, .idle⟩]) = readingOn j st.streams := by
      unfold readingOn
      rw [List.countP_append]
      have : List.countP (readPred j) [⟨i, .idle⟩] = 0 := by
        rw [List.countP_cons, List.countP_nil,
          if_bool_false (@readPred_eq_false_phase j ⟨i, .idle⟩ (by intro hc; cases hc))]
      omega
    rw [heq]
    exact h3 j
  · intro j
    have h4j := h4 j
    unfold unfinishedOn at h4j hzero ⊢
    dsimp only
    rw [List.countP_append]
    by_cases hj : j = i
    · subst hj
      have : List.countP (unfPred j) [⟨j, .idle⟩] = 1 := by
        rw [List.countP_cons, List.countP_nil,
          if_bool_true (@unfPred_eq_true j ⟨j, .idle⟩ rfl (Or.inl rfl))]
      omega
    · have : List.countP (unfPred j) [⟨i, .idle⟩] = 0 := by
        rw [List.countP_cons, List.countP_nil,
          if_bool_false (@unfPred_eq_false_conn j ⟨i, .idle⟩ (fun e => hj e.symm))]
      omega
  · have : List.countP PoolStream.isReading [(⟨i, .idle⟩ : PoolStream)] = 0 := by
      rw [List.countP_cons, List.countP_nil,
        if_bool_false (@isReading_eq_false ⟨i, .idle⟩ (by intro hc; cases hc))]
    simp only []
    rw [List.countP_append]
    omega

theorem poolInv_step (st st' : PoolSt) (act : PoolAct) (hinv : PoolInv st)
    (h : st.step act = some st') : PoolInv st' := by
  cases act with
  | send i =>
    simp only [PoolSt.step] at h
    split at h
    · injection h with h2
      subst h2
      exact hinv
    · exact Option.noConfusion h
  | recv i =>
    simp only [PoolSt.step] at h
    split at h
    · rename_i hcond
      simp only [Bool.and_eq_true, decide_eq_true_eq] at hcond
      injection h with h2
      subst h2
      exact poolInv_recv st i hinv hcond.1 hcond.2
    · exact Option.noConfusion h
  | advance k =>
    simp only [PoolSt.step] at h
    cases hget : st.streams.get? k with
    | none =>
      rw [hget] at h
      simp at h
    | some s =>
      rw [hget] at h
      dsimp only at h
      cases hph : s.phase with
      | idle =>
        rw [hph] at h
        simp only [Option.some.injEq] at h
        subst h
        exact poolInv_acquire st k s hinv hget hph
      | reading =>
        rw [hph] at h
        simp only [Option.some.injEq] at h
        subst h
        exact hinv
      | finished =>
        rw [hph] at h
        simp at h
      | cancelled =>
        rw [hph] at h
        simp at h
  | finish k =>
    simp only [PoolSt.step] at h
    cases hget : st.streams.get? k with
    | none =>
      rw [hget] at h
      simp at h
    | some s =>
      rw [hget] at h
      dsimp only at h
      cases hph : s.phase with
      | idle =>
        rw [hph] at h
        simp at h
      | reading =>
        rw [hph] at h
        simp only [Option.some.injEq] at h
        subst h
        exact poolInv_release st k s .finished hinv hget hph (Or.inl rfl)
      | finished =>
        rw [hph] at h
        simp at h
      | cancelled =>
        rw [hph] at h
        simp at h
  | cancel k =>
    simp only [PoolSt.step] at h
    cases hget : st.streams.get? k with
    | none =>
      rw [hget] at h
      simp at h
    | some s =>
      rw [hget] at h
      dsimp only at h
      cases hph : s.phase with
      | idle =>
        rw [hph] at h
        simp only [Option.some.injEq] at h
        subst h
        exact poolInv_cancel_idle st k s hinv hget hph
      | reading =>
        rw [hph] at h
        simp only [Option.some.injEq] at h
        subst h
        exact poolInv_release st k s .cancelled hinv hget hph (Or.inr rfl)
      | finished =>
        rw [hph] at h
        simp at h
      | cancelled =>
        rw [hph] at h
        simp at h

theorem poolInv_init (n : Nat) : PoolInv (initPool n) := by
  refine ⟨by simp [initPool], by simp [initPool], ?_, ?_, ?_⟩
  · intro j
    simp [initPool, readingOn]
  · intro j
    simp [initPool, unfinishedOn]
  · simp [initPool, List.countP_replicate]

theorem poolInv_reachable (st : PoolSt) (h : PoolReachable st) : PoolInv st := by
  induction h with
  | init n => exact poolInv_init n
  | step hr hstep ih => exact poolInv_step _ _ _ ih hstep

/-- The six-operation prelude of the pool scenario: three sends and three
stream creations on a pool of three connections. -/
def poolScenarioBase : List PoolAct :=
  [.send 0, .send 1, .send 2, .recv 0, .recv 1, .recv 2]

/-- Claim C8: in every reachable pool state, `available` equals the pool
size minus the number of streams that were advanced at least once and are
not yet completed or cancelled; on a pool of 3, sends and stream creation
leave `available` at 3, each first advance decrements it, completion
restores each slot until full exhaustion restores 3, and abandoning a
stream by early cancellation also restores its slot. -/
theorem pool_available_invariant :
    (∀ st : PoolSt, PoolReachable st →
        st.available = st.size - st.readingCount) ∧
    (runActs (initPool 3) poolScenarioBase).map PoolSt.available = some 3 ∧
    (runActs (initPool 3) (poolScenarioBase ++ [.advance 0])).map PoolSt.available =
      some 2 ∧
    (runActs (initPool 3) (poolScenarioBase ++ [.advance 0, .advance 1])).map
      PoolSt.available = some 1 ∧
    (runActs (initPool 3)
        (poolScenarioBase ++ [.advance 0, .advance 1, .advance 2])).map
      PoolSt.available = some 0 ∧
    (runActs (initPool 3)
        (poolScenarioBase ++ [.advance 0, .advance 1, .advance 2, .finish 0])).map
      PoolSt.available = some 1 ∧
    (runActs (initPool 3)
        (poolScenarioBase ++
          [.advance 0, .advance 1, .advance 2, .finish 0, .finish 1])).map
      PoolSt.available = some 2 ∧
    (runActs (initPool 3)
        (poolScenarioBase ++
          [.advance 0, .advance 1, .advance 2, .finish 0, .finish 1, .finish 2])).map
      PoolSt.available = some 3 ∧
    (runActs (initPool 3) (poolScenarioBase ++ [.advance 0, .cancel 0])).map
      PoolSt.available = some 3 := by
  refine ⟨?_, by decide, by decide, by decide, by decide, by decide, by decide,
    by decide, by decide⟩
  intro st h
  obtain ⟨h1, _, _, _, h5⟩ := poolInv_reachable st h
  have hsplit := countP_bool_split st.busy
  unfold PoolSt.available PoolSt.readingCount
  omega

theorem pool_available_invariant_witness :
    (initPool 3).available = (initPool 3).size - (initPool 3).readingCount :=
  pool_available_invariant.1 (initPool 3) (PoolReachable.init 3)

end Infinispan
